import Mathlib

/-!
Verification of the mixture-of-rigid-transforms operator (NTfm3D) and its
companions, shallowly embedded from the C/CUDA sources:

* `layers/src/cuda/ntfm3d_kernel.cu` — forward kernel `computeTransformedPoints`,
  backward kernel `computeGradients` with its shared-memory tree reduction and
  atomic cross-block accumulation, and the host launchers;
* the host entry points (`NTfm3DDelta_forward_cuda` / `NTfm3DDelta_backward_cuda`)
  with the constant-memory capacity check and gradient-buffer zero initialization;
* `layers/src/wt3dtfmloss_cuda.c` — the fused squared-error loss host wrapper;
* `layers/src/computeflowandvisibility_pts_cpu.c` — the CPU flow/visibility
  data-association routine.

Device floats are modelled as exact rationals (`ℚ`); every definition mirrors
the order of operations of the corresponding source loop, so the theorems state
what the code computes over exact arithmetic.  Tensors are modelled as total
functions from (batch, channel, row, column) indices to scalars, coordinate
channels by `Fin 3` and transform parameters (a 3×4 row-major matrix) by their
flat index 0..11 as in the source.
-/

/-- Input bundle for one NTfm3D call: dimensions and the three input tensors.
`points b i r c` is coordinate `i` of the point at cell `(b, r, c)` (shape
B×3×R×C), `masks b k r c` the weight of transform `k` at that cell (shape
B×K×R×C), and `tfms b k j` parameter `j` (0..11, row-major 3×4) of transform
`k` of batch `b` (shape B×K×12). -/
structure NTfm3DInput where
  B : ℕ
  K : ℕ
  R : ℕ
  C : ℕ
  points : ℕ → Fin 3 → ℕ → ℕ → ℚ
  masks : ℕ → ℕ → ℕ → ℕ → ℚ
  tfms : ℕ → ℕ → ℕ → ℚ

/-- The `for (k = 0; k < nSE3; k++)` accumulation loop of the forward kernel
`computeTransformedPoints` (ntfm3d_kernel.cu lines 41–51): starting from
`(x, y, z)`, iteration `k` adds `w_k * (T[4i]·x + T[4i+1]·y + T[4i+2]·z +
T[4i+3] - coord)` to each coordinate accumulator. -/
def fwdLoop (tfm : ℕ → ℕ → ℚ) (w : ℕ → ℚ) (x y z : ℚ) : ℕ → ℚ × ℚ × ℚ
  | 0 => (x, y, z)
  | n + 1 =>
      ((fwdLoop tfm w x y z n).1 +
         w n * (tfm n 0 * x + tfm n 1 * y + tfm n 2 * z + tfm n 3 - x),
       (fwdLoop tfm w x y z n).2.1 +
         w n * (tfm n 4 * x + tfm n 5 * y + tfm n 6 * z + tfm n 7 - y),
       (fwdLoop tfm w x y z n).2.2 +
         w n * (tfm n 8 * x + tfm n 9 * y + tfm n 10 * z + tfm n 11 - z))

/-- Forward kernel `computeTransformedPoints` of ntfm3d_kernel.cu, per output
cell: reads the 3D point at `(b, r, c)`, runs the accumulation loop over all
`K` transforms and writes the three coordinate results. -/
def computeTransformedPoints (inp : NTfm3DInput) (b : ℕ) (i : Fin 3) (r c : ℕ) : ℚ :=
  let x := inp.points b 0 r c
  let y := inp.points b 1 r c
  let z := inp.points b 2 r c
  let t := fwdLoop (inp.tfms b) (fun k => inp.masks b k r c) x y z inp.K
  ![t.1, t.2.1, t.2.2] i

/-- Row `i` of the linear (rotation) part of a 3×4 row-major transform applied
to a point: `(R·p)_i = T[4i]·p₀ + T[4i+1]·p₁ + T[4i+2]·p₂`. -/
def rotApply (T : ℕ → ℚ) (p : Fin 3 → ℚ) (i : Fin 3) : ℚ :=
  T (4 * i.val) * p 0 + T (4 * i.val + 1) * p 1 + T (4 * i.val + 2) * p 2

/-- Coordinate `i` of the translation part of a 3×4 row-major transform:
`t_i = T[4i+3]`. -/
def transOf (T : ℕ → ℚ) (i : Fin 3) : ℚ :=
  T (4 * i.val + 3)

/-- Closed form of the forward accumulation loop, first coordinate. -/
theorem fwdLoop_fst (tfm : ℕ → ℕ → ℚ) (w : ℕ → ℚ) (x y z : ℚ) (n : ℕ) :
    (fwdLoop tfm w x y z n).1 =
      x + ∑ k ∈ Finset.range n,
        w k * (tfm k 0 * x + tfm k 1 * y + tfm k 2 * z + tfm k 3 - x) := by
  induction n with
  | zero => simp [fwdLoop]
  | succ n ih => rw [Finset.sum_range_succ, fwdLoop, ih]; ring

/-- Closed form of the forward accumulation loop, second coordinate. -/
theorem fwdLoop_snd (tfm : ℕ → ℕ → ℚ) (w : ℕ → ℚ) (x y z : ℚ) (n : ℕ) :
    (fwdLoop tfm w x y z n).2.1 =
      y + ∑ k ∈ Finset.range n,
        w k * (tfm k 4 * x + tfm k 5 * y + tfm k 6 * z + tfm k 7 - y) := by
  induction n with
  | zero => simp [fwdLoop]
  | succ n ih => rw [Finset.sum_range_succ, fwdLoop, ih]; ring

/-- Closed form of the forward accumulation loop, third coordinate. -/
theorem fwdLoop_thd (tfm : ℕ → ℕ → ℚ) (w : ℕ → ℚ) (x y z : ℚ) (n : ℕ) :
    (fwdLoop tfm w x y z n).2.2 =
      z + ∑ k ∈ Finset.range n,
        w k * (tfm k 8 * x + tfm k 9 * y + tfm k 10 * z + tfm k 11 - z) := by
  induction n with
  | zero => simp [fwdLoop]
  | succ n ih => rw [Finset.sum_range_succ, fwdLoop, ih]; ring

/-- Closed form of the forward kernel output, shared by the forward claims. -/
theorem computeTransformedPoints_closed_form (inp : NTfm3DInput) (b r c : ℕ) (i : Fin 3) :
    computeTransformedPoints inp b i r c =
      inp.points b i r c +
        ∑ k ∈ Finset.range inp.K,
          inp.masks b k r c *
            (rotApply (inp.tfms b k) (fun j => inp.points b j r c) i +
              transOf (inp.tfms b k) i - inp.points b i r c) := by
  fin_cases i <;>
    simp only [computeTransformedPoints, fwdLoop_fst, fwdLoop_snd, fwdLoop_thd,
      Matrix.cons_val_zero, Matrix.cons_val_one, Matrix.head_cons,
      Matrix.cons_val_two, Matrix.tail_cons] <;>
    refine congrArg _ (Finset.sum_congr rfl fun k _ => ?_) <;>
    simp [rotApply, transOf]

/-- C1: at every cell `(b, r, c)` and coordinate `i`, the forward kernel writes
`out_i = p_i + ∑_{k<K} w_k * ((R_k·p)_i + (t_k)_i - p_i)`, where `p` is the
input point at the cell, `w_k` its mask weight for transform `k`, and `R_k`,
`t_k` the linear and translation parts of transform `k` of batch `b`. -/
theorem C1_forward_formula (inp : NTfm3DInput) (b r c : ℕ) (i : Fin 3) :
    computeTransformedPoints inp b i r c =
      inp.points b i r c +
        ∑ k ∈ Finset.range inp.K,
          inp.masks b k r c *
            (rotApply (inp.tfms b k) (fun j => inp.points b j r c) i +
              transOf (inp.tfms b k) i - inp.points b i r c) :=
  computeTransformedPoints_closed_form inp b r c i

/-- C7: if every mask weight of the call is zero, the forward kernel output
equals the input point field exactly at every cell. -/
theorem C7_zero_masks_identity (inp : NTfm3DInput)
    (h : ∀ b < inp.B, ∀ k < inp.K, ∀ r < inp.R, ∀ c < inp.C, inp.masks b k r c = 0) :
    ∀ b < inp.B, ∀ r < inp.R, ∀ c < inp.C, ∀ i : Fin 3,
      computeTransformedPoints inp b i r c = inp.points b i r c := by
  intro b hb r hr c hc i
  rw [computeTransformedPoints_closed_form]
  have hz : ∀ k ∈ Finset.range inp.K,
      inp.masks b k r c *
        (rotApply (inp.tfms b k) (fun j => inp.points b j r c) i +
          transOf (inp.tfms b k) i - inp.points b i r c) = 0 := by
    intro k hk
    rw [h b hb k (Finset.mem_range.mp hk) r hr c hc, zero_mul]
  rw [Finset.sum_congr rfl hz, Finset.sum_const_zero, add_zero]

/-- Input with a single cell, a single transform and all-zero masks, used to
instantiate `C7_zero_masks_identity` concretely. -/
def zeroMaskInput : NTfm3DInput where
  B := 1
  K := 1
  R := 1
  C := 1
  points := fun _ i _ _ => (i.val : ℚ) + 1
  masks := fun _ _ _ _ => 0
  tfms := fun _ _ j => (j : ℚ)

theorem C7_zero_masks_identity_witness :
    (∀ b < zeroMaskInput.B, ∀ k < zeroMaskInput.K, ∀ r < zeroMaskInput.R,
        ∀ c < zeroMaskInput.C, zeroMaskInput.masks b k r c = 0) ∧
      computeTransformedPoints zeroMaskInput 0 1 0 0 = zeroMaskInput.points 0 1 0 0 :=
  ⟨by decide, C7_zero_masks_identity zeroMaskInput (by decide) 0 (by decide) 0
      (by decide) 0 (by decide) 1⟩

/-- The `for (k = 0; k < nSE3; k++)` accumulation of gradients w.r.t. the input
point in the backward kernel `computeGradients` (ntfm3d_kernel.cu lines
169–187): the accumulators start at the upstream gradient `(gxt, gyt, gzt)`
and iteration `k` adds `w_k * (t_i - g_i)` where `(tx, ty, tz)` is `R_k^T`
applied to the upstream gradient. -/
def bwdLoop (tfm : ℕ → ℕ → ℚ) (w : ℕ → ℚ) (gxt gyt gzt : ℚ) : ℕ → ℚ × ℚ × ℚ
  | 0 => (gxt, gyt, gzt)
  | n + 1 =>
      ((bwdLoop tfm w gxt gyt gzt n).1 +
         w n * (tfm n 0 * gxt + tfm n 4 * gyt + tfm n 8 * gzt - gxt),
       (bwdLoop tfm w gxt gyt gzt n).2.1 +
         w n * (tfm n 1 * gxt + tfm n 5 * gyt + tfm n 9 * gzt - gyt),
       (bwdLoop tfm w gxt gyt gzt n).2.2 +
         w n * (tfm n 2 * gxt + tfm n 6 * gyt + tfm n 10 * gzt - gzt))

/-- The gradPoints output of the backward kernel `computeGradients` at cell
`(b, r, c)`, coordinate `i`: result of the accumulation loop over all `K`
transforms, written once per within-limits cell at kernel lines 261–266. -/
def computeGradPoints (inp : NTfm3DInput) (gradOut : ℕ → Fin 3 → ℕ → ℕ → ℚ)
    (b : ℕ) (i : Fin 3) (r c : ℕ) : ℚ :=
  let gxt := gradOut b 0 r c
  let gyt := gradOut b 1 r c
  let gzt := gradOut b 2 r c
  let t := bwdLoop (inp.tfms b) (fun k => inp.masks b k r c) gxt gyt gzt inp.K
  ![t.1, t.2.1, t.2.2] i

/-- Row `i` of the TRANSPOSED linear part of a 3×4 row-major transform applied
to a vector: `(R^T·g)_i = T[i]·g₀ + T[i+4]·g₁ + T[i+8]·g₂`. -/
def rotTApply (T : ℕ → ℚ) (g : Fin 3 → ℚ) (i : Fin 3) : ℚ :=
  T i.val * g 0 + T (i.val + 4) * g 1 + T (i.val + 8) * g 2

/-- Closed form of the backward gradPoints loop, first coordinate. -/
theorem bwdLoop_fst (tfm : ℕ → ℕ → ℚ) (w : ℕ → ℚ) (gxt gyt gzt : ℚ) (n : ℕ) :
    (bwdLoop tfm w gxt gyt gzt n).1 =
      gxt + ∑ k ∈ Finset.range n,
        w k * (tfm k 0 * gxt + tfm k 4 * gyt + tfm k 8 * gzt - gxt) := by
  induction n with
  | zero => simp [bwdLoop]
  | succ n ih => rw [Finset.sum_range_succ, bwdLoop, ih]; ring

/-- Closed form of the backward gradPoints loop, second coordinate. -/
theorem bwdLoop_snd (tfm : ℕ → ℕ → ℚ) (w : ℕ → ℚ) (gxt gyt gzt : ℚ) (n : ℕ) :
    (bwdLoop tfm w gxt gyt gzt n).2.1 =
      gyt + ∑ k ∈ Finset.range n,
        w k * (tfm k 1 * gxt + tfm k 5 * gyt + tfm k 9 * gzt - gyt) := by
  induction n with
  | zero => simp [bwdLoop]
  | succ n ih => rw [Finset.sum_range_succ, bwdLoop, ih]; ring

/-- Closed form of the backward gradPoints loop, third coordinate. -/
theorem bwdLoop_thd (tfm : ℕ → ℕ → ℚ) (w : ℕ → ℚ) (gxt gyt gzt : ℚ) (n : ℕ) :
    (bwdLoop tfm w gxt gyt gzt n).2.2 =
      gzt + ∑ k ∈ Finset.range n,
        w k * (tfm k 2 * gxt + tfm k 6 * gyt + tfm k 10 * gzt - gzt) := by
  induction n with
  | zero => simp [bwdLoop]
  | succ n ih => rw [Finset.sum_range_succ, bwdLoop, ih]; ring

/-- C2: at every cell, the backward kernel writes
`gradPoints_i = g_i + ∑_{k<K} w_k * ((R_k^T·g)_i - g_i)` — the pass-through
upstream gradient plus, for each transform, the weight times the
rotated-back-minus-identity gradient. -/
theorem C2_gradPoints_formula (inp : NTfm3DInput) (gradOut : ℕ → Fin 3 → ℕ → ℕ → ℚ)
    (b r c : ℕ) (i : Fin 3) :
    computeGradPoints inp gradOut b i r c =
      gradOut b i r c +
        ∑ k ∈ Finset.range inp.K,
          inp.masks b k r c *
            (rotTApply (inp.tfms b k) (fun j => gradOut b j r c) i - gradOut b i r c) := by
  fin_cases i <;>
    simp only [computeGradPoints, bwdLoop_fst, bwdLoop_snd, bwdLoop_thd,
      Matrix.cons_val_zero, Matrix.cons_val_one, Matrix.head_cons,
      Matrix.cons_val_two, Matrix.tail_cons] <;>
    refine congrArg _ (Finset.sum_congr rfl fun k _ => ?_) <;>
    simp [rotTApply]

/-- The gradMasks write of the backward kernel `computeGradients`
(ntfm3d_kernel.cu lines 189–191): for each transform `k`, the cell's mask
gradient is assigned (a single `=` store, no accumulation)
`x·tx + y·ty + z·tz + gxt·(T[3]-x) + gyt·(T[7]-y) + gzt·(T[11]-z)`, with
`(tx, ty, tz) = R_k^T · g`. -/
def computeGradMasks (inp : NTfm3DInput) (gradOut : ℕ → Fin 3 → ℕ → ℕ → ℚ)
    (b k r c : ℕ) : ℚ :=
  let x := inp.points b 0 r c
  let y := inp.points b 1 r c
  let z := inp.points b 2 r c
  let gxt := gradOut b 0 r c
  let gyt := gradOut b 1 r c
  let gzt := gradOut b 2 r c
  let T := inp.tfms b k
  let tx := T 0 * gxt + T 4 * gyt + T 8 * gzt
  let ty := T 1 * gxt + T 5 * gyt + T 9 * gzt
  let tz := T 2 * gxt + T 6 * gyt + T 10 * gzt
  x * tx + y * ty + z * tz +
    gxt * (T 3 - x) + gyt * (T 7 - y) + gzt * (T 11 - z)

/-- Dot product of two 3-vectors. -/
def dotQ (a b : Fin 3 → ℚ) : ℚ :=
  a 0 * b 0 + a 1 * b 1 + a 2 * b 2

/-- C3: at every cell and transform index `k`, the backward kernel writes
`gradMasks[b,k,r,c] = p·(R_k^T·g) + g·(t_k - p)`, where `p` is the input
point and `g` the upstream gradient at the cell.  The store is a plain
assignment in the source, executed once per `(b, k, r, c)`, so the final
buffer value is exactly this expression. -/
theorem C3_gradMasks_formula (inp : NTfm3DInput) (gradOut : ℕ → Fin 3 → ℕ → ℕ → ℚ)
    (b k r c : ℕ) :
    computeGradMasks inp gradOut b k r c =
      dotQ (fun j => inp.points b j r c)
          (rotTApply (inp.tfms b k) (fun j => gradOut b j r c)) +
        dotQ (fun j => gradOut b j r c)
          (fun j => transOf (inp.tfms b k) j - inp.points b j r c) := by
  show _ = dotQ _ (fun j => rotTApply (inp.tfms b k) (fun j' => gradOut b j' r c) j) + _
  simp only [computeGradMasks, dotQ, rotTApply, transOf]
  norm_num
  ring

/-- One halving round of the shared-memory tree reduction of `computeGradients`
(ntfm3d_kernel.cu lines 223–240), as it acts on the slot array of a single
transform parameter: thread `t < s` adds slot `t + s` into slot `t`, all other
slots are unchanged.  The source runs the round with the first half of the
threads for parameters 0–5 and the second half (indices shifted down by
nThreads/2) for parameters 6–11; per parameter array both variants perform
exactly this update. -/
def reduceRound (a : ℕ → ℚ) (s : ℕ) : ℕ → ℚ :=
  fun t => if t < s then a t + a (t + s) else a t

/-- Sequential composition of halving rounds (the rounds are separated by
`__syncthreads`, so each acts on the result of the previous one). -/
def applyRounds (a : ℕ → ℚ) (l : List ℕ) : ℕ → ℚ :=
  l.foldl reduceRound a

/-- The sequence of `s` values of the source loop
`for (s = nThreads/2; s >= 32; s >>= 1)` for `nThreads = 2^m`:
`[2^(m-1), ..., 32]` (empty when `2^(m-1) < 32`). -/
def treeStageList : ℕ → List ℕ
  | 0 => []
  | m + 1 => if 32 ≤ 2 ^ m then 2 ^ m :: treeStageList m else []

/-- Modelled from the spec: `warpReduceSum` lives in `cudautils.h`, which is
not among the sources; §4.3 specifies that the warp-synchronous stage
"finishes the final 5 halvings" after the tree stage stops at 32 active
threads.  It is therefore modelled as the five halving rounds
s = 16, 8, 4, 2, 1. -/
def warpStageList : List ℕ :=
  [16, 8, 4, 2, 1]

/-- Block-level reduction of one transform parameter over `2^m` thread slots,
as performed by `computeGradients`: the tree rounds from `2^(m-1)` down to 32,
then the warp stage; the block result is slot 0 (stored into
`sharedGradTfmResults` by thread 0). -/
def blockReduce (a : ℕ → ℚ) (m : ℕ) : ℚ :=
  applyRounds (applyRounds a (treeStageList m)) warpStageList 0

/-- The full list of halvings `[2^(m-1), ..., 2, 1]`. -/
def halveList : ℕ → List ℕ
  | 0 => []
  | m + 1 => 2 ^ m :: halveList m

/-- Applying all halvings down to 1 leaves the sum of the `2^m` slots in
slot 0. -/
theorem applyRounds_halveList (m : ℕ) :
    ∀ a : ℕ → ℚ, applyRounds a (halveList m) 0 = ∑ j ∈ Finset.range (2 ^ m), a j := by
  induction m with
  | zero =>
      intro a
      simp [halveList, applyRounds]
  | succ m ih =>
      intro a
      have h2 : ∀ j ∈ Finset.range (2 ^ m),
          reduceRound a (2 ^ m) j = a j + a (j + 2 ^ m) :=
        fun j hj => if_pos (Finset.mem_range.mp hj)
      calc applyRounds a (halveList (m + 1)) 0
          = ∑ j ∈ Finset.range (2 ^ m), reduceRound a (2 ^ m) j := ih _
        _ = ∑ j ∈ Finset.range (2 ^ m), (a j + a (j + 2 ^ m)) :=
            Finset.sum_congr rfl h2
        _ = (∑ j ∈ Finset.range (2 ^ m), a j) +
              ∑ j ∈ Finset.range (2 ^ m), a (j + 2 ^ m) :=
            Finset.sum_add_distrib
        _ = ∑ j ∈ Finset.range (2 ^ (m + 1)), a j := by
            rw [pow_succ, mul_two, Finset.sum_range_add]
            congr 1
            exact Finset.sum_congr rfl fun x _ => by rw [add_comm]

/-- For at least 64 threads, the tree stage followed by the warp stage is the
full halving sequence. -/
theorem treeStage_append_warpStage (m : ℕ) (h : 5 ≤ m) :
    treeStageList m ++ warpStageList = halveList m := by
  induction m with
  | zero => omega
  | succ m ih =>
      rcases Nat.lt_or_ge m 5 with hm | hm
      · have hm4 : m = 4 := by omega
        subst hm4
        decide
      · have h32 : 32 ≤ 2 ^ m := by
          calc (32 : ℕ) = 2 ^ 5 := by norm_num
            _ ≤ 2 ^ m := Nat.pow_le_pow_right (by norm_num) hm
        have ht : treeStageList (m + 1) = 2 ^ m :: treeStageList m := by
          rw [treeStageList, if_pos h32]
        rw [ht, List.cons_append, ih hm, halveList]

/-- The block reduction computes the exact sum of its `2^m` slots. -/
theorem blockReduce_eq_sum (a : ℕ → ℚ) (m : ℕ) (h : 5 ≤ m) :
    blockReduce a m = ∑ j ∈ Finset.range (2 ^ m), a j := by
  rw [blockReduce, applyRounds, applyRounds, ← List.foldl_append,
    ← applyRounds, treeStage_append_warpStage m h, applyRounds_halveList]

/-- Exact (reassociation-free) total of a list of work-groups, each holding
`2^m` per-point contributions: the plain sum of all contributions. -/
def plainTotal (m : ℕ) (gs : List (ℕ → ℚ)) : ℚ :=
  (gs.map fun g => ∑ j ∈ Finset.range (2 ^ m), g j).sum

/-- Total produced by the two-stage scheme: each work-group is folded by the
in-block tree/warp reduction, and the per-group results are accumulated
(atomic adds, order-independent in exact arithmetic). -/
def twoStageTotal (m : ℕ) (gs : List (ℕ → ℚ)) : ℚ :=
  (gs.map fun g => blockReduce g m).sum

/-- Per-configuration agreement of the two-stage scheme with the plain sum. -/
theorem twoStageTotal_eq_plainTotal (m : ℕ) (hm : 5 ≤ m) (gs : List (ℕ → ℚ)) :
    twoStageTotal m gs = plainTotal m gs := by
  induction gs with
  | nil => rfl
  | cons g gs ih =>
      simp only [twoStageTotal, plainTotal, List.map_cons, List.sum_cons] at *
      rw [blockReduce_eq_sum g m hm, ih]

/-- C5: the two-stage transform-gradient reduction (per-group tree halving
down to 32 threads, warp-level finishing, atomic cross-group accumulation)
gives the same total whether the contributing points are processed in one
large work-group configuration or split across many smaller work-groups:
whenever two configurations carry the same plain sum of per-point
contributions, their two-stage totals agree, and each equals that plain sum.
Group sizes `2^m` with `5 ≤ m` cover all launchable configurations (the
source launches 16×16 = 2^8 threads per block and the warp stage needs at
least 32 slots). -/
theorem C5_two_stage_reduction (m1 m2 : ℕ) (gs1 gs2 : List (ℕ → ℚ))
    (hm1 : 5 ≤ m1) (hm2 : 5 ≤ m2)
    (h : plainTotal m1 gs1 = plainTotal m2 gs2) :
    twoStageTotal m1 gs1 = twoStageTotal m2 gs2 ∧
      twoStageTotal m1 gs1 = plainTotal m1 gs1 := by
  refine ⟨?_, twoStageTotal_eq_plainTotal m1 hm1 gs1⟩
  rw [twoStageTotal_eq_plainTotal m1 hm1 gs1, twoStageTotal_eq_plainTotal m2 hm2 gs2]
  exact h

theorem C5_two_stage_reduction_witness :
    twoStageTotal 6 [fun _ => (1 : ℚ)] =
        twoStageTotal 5 [fun _ => (1 : ℚ), fun _ => (1 : ℚ)] ∧
      twoStageTotal 6 [fun _ => (1 : ℚ)] = plainTotal 6 [fun _ => (1 : ℚ)] :=
  C5_two_stage_reduction 6 5 _ _ (by norm_num) (by norm_num)
    (by simp [plainTotal]; norm_num)

/-- Splitting a sum over `range (n * m)` into `n` blocks of `m`. -/
theorem sum_range_mul_split (n m : ℕ) (f : ℕ → ℚ) :
    ∑ j ∈ Finset.range (n * m), f j =
      ∑ q ∈ Finset.range n, ∑ s ∈ Finset.range m, f (q * m + s) := by
  induction n with
  | zero => simp
  | succ n ih => rw [Nat.succ_mul, Finset.sum_range_add, ih, Finset.sum_range_succ]

/-- A padded sum over `range N` with zeros beyond `C` equals the sum over
`range C`. -/
theorem sum_range_ite_lt (N C : ℕ) (h : C ≤ N) (v : ℕ → ℚ) :
    ∑ c ∈ Finset.range N, (if c < C then v c else 0) = ∑ c ∈ Finset.range C, v c := by
  rw [← Finset.sum_subset (Finset.range_subset.mpr h)
      (fun x _ hx => if_neg (by simpa using hx))]
  exact Finset.sum_congr rfl fun x hx => if_pos (Finset.mem_range.mp hx)

/-- Number of 16-wide blocks covering `n` items: `ceil(n/16)`, as computed by
the backward launcher grid decomposition. -/
def nBlocks16 (n : ℕ) : ℕ :=
  (n + 15) / 16

theorem le_nBlocks16_mul (n : ℕ) : n ≤ nBlocks16 n * 16 := by
  unfold nBlocks16
  omega

/-- Blocked, padded sums over 16-wide tiles collapse to the plain sum. -/
theorem sum_strip_pad (C n : ℕ) (hC : C ≤ n * 16) (v : ℕ → ℚ) :
    (∑ cb ∈ Finset.range n, ∑ s ∈ Finset.range 16,
        if cb * 16 + s < C then v (cb * 16 + s) else 0)
      = ∑ c ∈ Finset.range C, v c := by
  rw [← sum_range_mul_split n 16 fun j => if j < C then v j else 0]
  exact sum_range_ite_lt (n * 16) C hC v

/-- A 2-D tiling of `R × C` cells into 16×16 blocks with zeroed out-of-range
slots sums to the plain cell sum. -/
theorem sum_tiled16 (R C : ℕ) (F : ℕ → ℕ → ℚ) :
    (∑ rb ∈ Finset.range (nBlocks16 R), ∑ cb ∈ Finset.range (nBlocks16 C),
        ∑ q ∈ Finset.range 16, ∑ s ∈ Finset.range 16,
          if cb * 16 + s < C ∧ rb * 16 + q < R
            then F (rb * 16 + q) (cb * 16 + s) else 0)
      = ∑ r ∈ Finset.range R, ∑ c ∈ Finset.range C, F r c := by
  have inner : ∀ r', (∑ cb ∈ Finset.range (nBlocks16 C), ∑ s ∈ Finset.range 16,
        if cb * 16 + s < C ∧ r' < R then F r' (cb * 16 + s) else 0)
      = if r' < R then ∑ c ∈ Finset.range C, F r' c else 0 := by
    intro r'
    by_cases hr : r' < R
    · rw [if_pos hr,
        ← sum_strip_pad C (nBlocks16 C) (le_nBlocks16_mul C) fun c => F r' c]
      exact Finset.sum_congr rfl fun cb _ => Finset.sum_congr rfl fun s _ => by
        simp [hr]
    · simp [hr]
  have step1 : ∀ rb, (∑ cb ∈ Finset.range (nBlocks16 C), ∑ q ∈ Finset.range 16,
        ∑ s ∈ Finset.range 16,
          if cb * 16 + s < C ∧ rb * 16 + q < R
            then F (rb * 16 + q) (cb * 16 + s) else 0)
      = ∑ q ∈ Finset.range 16,
          if rb * 16 + q < R then ∑ c ∈ Finset.range C, F (rb * 16 + q) c else 0 := by
    intro rb
    rw [Finset.sum_comm]
    exact Finset.sum_congr rfl fun q _ => inner (rb * 16 + q)
  calc (∑ rb ∈ Finset.range (nBlocks16 R), ∑ cb ∈ Finset.range (nBlocks16 C),
          ∑ q ∈ Finset.range 16, ∑ s ∈ Finset.range 16,
            if cb * 16 + s < C ∧ rb * 16 + q < R
              then F (rb * 16 + q) (cb * 16 + s) else 0)
      = ∑ rb ∈ Finset.range (nBlocks16 R), ∑ q ∈ Finset.range 16,
          if rb * 16 + q < R then ∑ c ∈ Finset.range C, F (rb * 16 + q) c else 0 :=
        Finset.sum_congr rfl fun rb _ => step1 rb
    _ = ∑ r ∈ Finset.range R, ∑ c ∈ Finset.range C, F r c :=
        sum_strip_pad R (nBlocks16 R) (le_nBlocks16_mul R) fun r =>
          ∑ c ∈ Finset.range C, F r c

/-- Per-point, per-parameter transform-gradient contribution written into
shared memory by `computeGradients` (ntfm3d_kernel.cu lines 196–209):
parameter slots 0–2, 4–6, 8–10 hold `w·p_v·g_u` (rotation entries), slots
3, 7, 11 hold `w·g_u` (translation entries). -/
def tfmGradContrib (inp : NTfm3DInput) (gradOut : ℕ → Fin 3 → ℕ → ℕ → ℚ)
    (b k r c : ℕ) (i : Fin 12) : ℚ :=
  let x := inp.points b 0 r c
  let y := inp.points b 1 r c
  let z := inp.points b 2 r c
  let gxt := gradOut b 0 r c
  let gyt := gradOut b 1 r c
  let gzt := gradOut b 2 r c
  let w := inp.masks b k r c
  if i.val = 0 then w * x * gxt
  else if i.val = 1 then w * y * gxt
  else if i.val = 2 then w * z * gxt
  else if i.val = 3 then w * gxt
  else if i.val = 4 then w * x * gyt
  else if i.val = 5 then w * y * gyt
  else if i.val = 6 then w * z * gyt
  else if i.val = 7 then w * gyt
  else if i.val = 8 then w * x * gzt
  else if i.val = 9 then w * y * gzt
  else if i.val = 10 then w * z * gzt
  else w * gzt

/-- Shared-memory slot array of one 16×16 block of the backward launch grid
(block coordinates `cb` along columns, `rb` along rows, batch `b`): thread
`tid` covers cell `(rb*16 + tid/16, cb*16 + tid%16)` and holds its
contribution for parameter `i` of transform `k`, or 0 when the cell is
outside the valid spatial range (the `withinLimits` zeroing, kernel lines
211–216). -/
def blockSlots (inp : NTfm3DInput) (gradOut : ℕ → Fin 3 → ℕ → ℕ → ℚ)
    (b k : ℕ) (i : Fin 12) (cb rb : ℕ) : ℕ → ℚ :=
  fun tid =>
    if cb * 16 + tid % 16 < inp.C ∧ rb * 16 + tid / 16 < inp.R
      then tfmGradContrib inp gradOut b k (rb * 16 + tid / 16) (cb * 16 + tid % 16) i
      else 0

/-- Final value of `gradTfms[b, k*12 + i]` over exact arithmetic: the backward
launcher tiles the `R × C` cells into a grid of 16×16 = 2^8-thread blocks,
each block folds its slots with the tree/warp reduction, and every block
atomically adds its result into the global buffer (kernel lines 256–258);
atomic addition is order-independent over exact arithmetic, so the result is
the sum of the block reductions. -/
def NTfm3D_gradTfms (inp : NTfm3DInput) (gradOut : ℕ → Fin 3 → ℕ → ℕ → ℚ)
    (b k : ℕ) (i : Fin 12) : ℚ :=
  ∑ rb ∈ Finset.range (nBlocks16 inp.R), ∑ cb ∈ Finset.range (nBlocks16 inp.C),
    blockReduce (blockSlots inp gradOut b k i cb rb) 8

/-- Splitting `range 256` thread ids into the 16 rows of 16 threads. -/
theorem sum_range_256 (f : ℕ → ℚ) :
    ∑ t ∈ Finset.range (2 ^ 8), f t =
      ∑ q ∈ Finset.range 16, ∑ s ∈ Finset.range 16, f (q * 16 + s) := by
  have h : (2 ^ 8 : ℕ) = 16 * 16 := by norm_num
  rw [h, sum_range_mul_split]

/-- The blocked reduction total equals the plain sum of all per-cell
contributions. -/
theorem gradTfms_eq_cellSum (inp : NTfm3DInput) (gradOut : ℕ → Fin 3 → ℕ → ℕ → ℚ)
    (b k : ℕ) (i : Fin 12) :
    NTfm3D_gradTfms inp gradOut b k i =
      ∑ r ∈ Finset.range inp.R, ∑ c ∈ Finset.range inp.C,
        tfmGradContrib inp gradOut b k r c i := by
  rw [← sum_tiled16 inp.R inp.C fun r c => tfmGradContrib inp gradOut b k r c i]
  unfold NTfm3D_gradTfms
  refine Finset.sum_congr rfl fun rb _ => Finset.sum_congr rfl fun cb _ => ?_
  rw [blockReduce_eq_sum _ 8 (by norm_num), sum_range_256]
  refine Finset.sum_congr rfl fun q _ => Finset.sum_congr rfl fun s hs => ?_
  have hs16 := Finset.mem_range.mp hs
  have h1 : (q * 16 + s) % 16 = s := by omega
  have h2 : (q * 16 + s) / 16 = q := by omega
  simp only [blockSlots, h1, h2]

/-- The per-point transform gradient as the spec states it: the 3×4 matrix
whose rotation entries (columns 0–2) form the outer product `w * p ⊗ g`
(entry `(u, v)` is `w * p_v * g_u`) and whose translation column holds
`w * g`. -/
def specTfmGradMat (w : ℚ) (p g : Fin 3 → ℚ) (u : Fin 3) (v : Fin 4) : ℚ :=
  if h : (v : ℕ) < 3 then w * p ⟨v, h⟩ * g u else w * g u

/-- C4: the final `gradTfms` entry for transform `(b, k)` at matrix position
`(u, v)` (flat parameter index `4u + v`) equals the sum over all cells of the
batch of the per-point contribution `w * p ⊗ g` (rotation entries) or `w * g`
(translation entries), accumulated additively across all contributing
points. -/
theorem C4_gradTfms_total (inp : NTfm3DInput) (gradOut : ℕ → Fin 3 → ℕ → ℕ → ℚ)
    (b k : ℕ) (u : Fin 3) (v : Fin 4) :
    NTfm3D_gradTfms inp gradOut b k ⟨4 * u.val + v.val, by omega⟩ =
      ∑ r ∈ Finset.range inp.R, ∑ c ∈ Finset.range inp.C,
        specTfmGradMat (inp.masks b k r c) (fun j => inp.points b j r c)
          (fun j => gradOut b j r c) u v := by
  rw [gradTfms_eq_cellSum]
  refine Finset.sum_congr rfl fun r _ => Finset.sum_congr rfl fun c _ => ?_
  fin_cases u <;> fin_cases v <;>
    simp [tfmGradContrib, specTfmGradMat, Fin.ext_iff]

/-- Outcome of the host-side precondition stage of a call: either control
reaches the kernel launch, or the call dies in the fatal capacity assert. -/
inductive LaunchCheck where
  | proceed
  | capacityExceeded
deriving DecidableEq

/-- Total scalar count of the Transform Set, `THCudaTensor_nElement(tfms)` for
shape `(B, K, 12)`. -/
def nTfmParams (inp : NTfm3DInput) : ℕ :=
  inp.B * inp.K * 12

/-- Constant-memory capacity guard of `NTfm3DDelta_forward_cuda` (unnamed
source part_000 lines 23–30): the check `nTfmParams > 15000` runs before the
kernel launch and `assert(false)` aborts the call when it trips; `.proceed`
models control reaching the launch. -/
def NTfm3DDelta_forward_cuda_check (inp : NTfm3DInput) : LaunchCheck :=
  if 15000 < nTfmParams inp then .capacityExceeded else .proceed

/-- Constant-memory capacity guard of `NTfm3DDelta_backward_cuda`
(part_000 lines 89–96), identical to the forward guard. -/
def NTfm3DDelta_backward_cuda_check (inp : NTfm3DInput) : LaunchCheck :=
  if 15000 < nTfmParams inp then .capacityExceeded else .proceed

/-- Constant-memory capacity guard of `Weighted3DTransformLoss_forward_cuda`
(wt3dtfmloss_cuda.c lines 25–32), identical to the NTfm3DDelta guards. -/
def Weighted3DTransformLoss_forward_cuda_check (inp : NTfm3DInput) : LaunchCheck :=
  if 15000 < nTfmParams inp then .capacityExceeded else .proceed

/-- C6: every call (forward or backward) proceeds past the capacity check to
the kernel launch exactly when `B*K*12 ≤ 15000`, and fails fatally with the
capacity error before any kernel launch when `B*K*12 ≥ 15001`. -/
theorem C6_capacity_boundary (inp : NTfm3DInput) :
    (nTfmParams inp ≤ 15000 →
        NTfm3DDelta_forward_cuda_check inp = .proceed ∧
          NTfm3DDelta_backward_cuda_check inp = .proceed ∧
          Weighted3DTransformLoss_forward_cuda_check inp = .proceed) ∧
      (15001 ≤ nTfmParams inp →
        NTfm3DDelta_forward_cuda_check inp = .capacityExceeded ∧
          NTfm3DDelta_backward_cuda_check inp = .capacityExceeded ∧
          Weighted3DTransformLoss_forward_cuda_check inp = .capacityExceeded) := by
  refine ⟨fun h => ?_, fun h => ?_⟩
  · have hn : ¬ 15000 < nTfmParams inp := by omega
    simp [NTfm3DDelta_forward_cuda_check, NTfm3DDelta_backward_cuda_check,
      Weighted3DTransformLoss_forward_cuda_check, hn]
  · have hn : 15000 < nTfmParams inp := by omega
    simp [NTfm3DDelta_forward_cuda_check, NTfm3DDelta_backward_cuda_check,
      Weighted3DTransformLoss_forward_cuda_check, hn]

/-- Shape with exactly `B*K*12 = 1250 * 1 * 12 = 15000` transform scalars. -/
def capacityOkInput : NTfm3DInput :=
  ⟨1250, 1, 1, 1, fun _ _ _ _ => 0, fun _ _ _ _ => 0, fun _ _ _ => 0⟩

/-- Shape with `B*K*12 = 1251 * 1 * 12 = 15012 > 15000` transform scalars. -/
def capacityBadInput : NTfm3DInput :=
  ⟨1251, 1, 1, 1, fun _ _ _ _ => 0, fun _ _ _ _ => 0, fun _ _ _ => 0⟩

theorem C6_capacity_boundary_witness :
    (NTfm3DDelta_forward_cuda_check capacityOkInput = .proceed ∧
        NTfm3DDelta_backward_cuda_check capacityOkInput = .proceed ∧
        Weighted3DTransformLoss_forward_cuda_check capacityOkInput = .proceed) ∧
      (NTfm3DDelta_forward_cuda_check capacityBadInput = .capacityExceeded ∧
        NTfm3DDelta_backward_cuda_check capacityBadInput = .capacityExceeded ∧
        Weighted3DTransformLoss_forward_cuda_check capacityBadInput = .capacityExceeded) :=
  ⟨(C6_capacity_boundary capacityOkInput).1 (by norm_num [nTfmParams, capacityOkInput]),
    (C6_capacity_boundary capacityBadInput).2 (by norm_num [nTfmParams, capacityBadInput])⟩

/-- Gradient output buffers of a backward call, as whole tensors. -/
structure BwdGradBuffers where
  gradPoints : ℕ → Fin 3 → ℕ → ℕ → ℚ
  gradMasks : ℕ → ℕ → ℕ → ℕ → ℚ
  gradTfms : ℕ → ℕ → ℕ → ℚ

/-- Buffer initialization performed by `NTfm3DDelta_backward_cuda` before the
kernel launch (part_000 lines 103–105): `THCudaTensor_fill(state, gradPoints,
0)` and `THCudaTensor_fill(state, gradTfms, 0)`.  No fill touches the mask
gradient buffer. -/
def NTfm3DDelta_backward_zeroInit (bufs : BwdGradBuffers) : BwdGradBuffers :=
  { bufs with gradPoints := fun _ _ _ _ => 0, gradTfms := fun _ _ _ => 0 }

/-- C8 counterexample: a pre-call buffer state whose mask-gradient entry 1
survives the backward entry point's zero-initialization, so the claim that
all three gradient buffers (including the Weight-Field gradient) are
zero-initialized is false. -/
theorem C8_counterexample :
    ¬ (NTfm3DDelta_backward_zeroInit
          ⟨fun _ _ _ _ => 0, fun _ _ _ _ => 1, fun _ _ _ => 0⟩).gradMasks 0 0 0 0 = 0 := by
  norm_num [NTfm3DDelta_backward_zeroInit]

/-- C8 amended: before the kernel runs, the backward entry point
zero-initializes exactly the two additively accumulated gradient buffers —
the Point-Field gradient and the Transform-Set gradient — and leaves the
Weight-Field (mask) gradient buffer untouched (the kernel overwrites each of
its cells with a plain store, so it needs no accumulation base). -/
theorem C8_zero_init_amended (bufs : BwdGradBuffers) :
    (∀ b i r c, (NTfm3DDelta_backward_zeroInit bufs).gradPoints b i r c = 0) ∧
      (∀ b k j, (NTfm3DDelta_backward_zeroInit bufs).gradTfms b k j = 0) ∧
      (∀ b k r c,
        (NTfm3DDelta_backward_zeroInit bufs).gradMasks b k r c = bufs.gradMasks b k r c) :=
  ⟨fun _ _ _ _ => rfl, fun _ _ _ => rfl, fun _ _ _ _ => rfl⟩

/-- C conversion of a `float` to `int`: truncation toward zero. -/
def cFloatToInt (q : ℚ) : ℤ :=
  if 0 ≤ q then ⌊q⌋ else -⌊-q⌋

/-- Host-side scaling and return of `Weighted3DTransformLoss_forward_cuda`
(wt3dtfmloss_cuda.c lines 54–76): the kernel-computed squared-error sum
(`kernelSum`, produced by the external loss kernel launcher) is scaled by
0.5, divided by the element count `B*3*R*C` of the point tensor when
`sizeAverage` is set, and then returned through the function's declared `int`
return type, which truncates the float loss toward zero. -/
def Weighted3DTransformLoss_forward_cuda_ret
    (kernelSum : ℚ) (sizeAverage : Bool) (B R C : ℕ) : ℤ :=
  let loss := kernelSum * (1 / 2)
  let loss2 := if sizeAverage then loss / ((B * 3 * R * C : ℕ) : ℚ) else loss
  cFloatToInt loss2

/-- C9: with kernel sum 1 and sizeAverage off, the scaled loss is
`1 * 0.5 = 1/2 ≠ 0`, but the host function returns 0: the declared `int`
return type truncates the computed float loss, so the returned scalar does
not equal the kernel sum multiplied by 0.5. -/
theorem C9_loss_return_truncated :
    Weighted3DTransformLoss_forward_cuda_ret 1 false 1 1 1 = 0 ∧
      (1 : ℚ) * (1 / 2) ≠ 0 := by
  constructor
  · norm_num [Weighted3DTransformLoss_forward_cuda_ret, cFloatToInt]
  · norm_num

/-- C `round`: nearest integer, halves rounded away from zero. -/
def cRound (q : ℚ) : ℤ :=
  if 0 ≤ q then ⌊q + 1 / 2⌋ else -⌊-q + 1 / 2⌋

/-- Input tensors of `ComputeFlowAndVisibility_Pts_float`
(computeflowandvisibility_pts_cpu.c).  Labels are unsigned chars (`ℕ`),
poses/pose inverses are per-batch, per-link 3×4 row-major transforms indexed
by their flat parameter index, and the camera intrinsics and search
parameters are scalars. -/
structure FlowVisTensors where
  batchsize : ℕ
  nrows : ℕ
  ncols : ℕ
  cloud1 : ℕ → Fin 3 → ℕ → ℕ → ℚ
  cloud2 : ℕ → Fin 3 → ℕ → ℕ → ℚ
  label1 : ℕ → ℕ → ℕ → ℕ
  label2 : ℕ → ℕ → ℕ → ℕ
  poses1 : ℕ → ℕ → ℕ → ℚ
  poses2 : ℕ → ℕ → ℕ → ℚ
  poseinvs1 : ℕ → ℕ → ℕ → ℚ
  poseinvs2 : ℕ → ℕ → ℕ → ℚ
  fx : ℚ
  fy : ℚ
  cx : ℚ
  cy : ℚ
  threshold : ℚ
  winsize : ℚ

/-- Local-coordinate computation of `ComputeFlowAndVisibility_Pts_float`
(lines 205–245): each camera-frame point is mapped by the pose inverse of its
link label, `local_pt = T_cam_to_local · global_pt`. -/
def localCoords (cloud : ℕ → Fin 3 → ℕ → ℕ → ℚ) (label : ℕ → ℕ → ℕ → ℕ)
    (poseinvs : ℕ → ℕ → ℕ → ℚ) (b : ℕ) (i : Fin 3) (r c : ℕ) : ℚ :=
  let T := poseinvs b (label b r c)
  rotApply T (fun j => cloud b j r c) i + transOf T i

/-- One candidate step of the nearest-neighbour window search of
`compute_visibility_and_flows` (lines 72–100).  The state is the current best
match `(squared distance, target row, target col)`, with `none` standing for
the initial `mindist = HUGE_VALF`, `mintr = mintc = -1`.  A candidate inside
the image whose mesh label equals `mi` replaces the state when its
local-space squared distance to the source point beats the current best and
stays below the squared threshold. -/
def daStep (nrows ncols : ℕ) (mi : ℕ) (label2 : ℕ → ℕ → ℕ → ℕ)
    (local2 : ℕ → Fin 3 → ℕ → ℕ → ℚ) (b : ℕ) (xi yi zi sqthresh : ℚ)
    (st : Option (ℚ × ℕ × ℕ)) (trc : ℤ × ℤ) : Option (ℚ × ℕ × ℕ) :=
  if trc.1 < 0 ∨ (nrows : ℤ) ≤ trc.1 ∨ trc.2 < 0 ∨ (ncols : ℤ) ≤ trc.2 then st
  else
    let tr := trc.1.toNat
    let tc := trc.2.toNat
    if label2 b tr tc ≠ mi then st
    else
      let dist := (xi - local2 b 0 tr tc) ^ 2 + (yi - local2 b 1 tr tc) ^ 2 +
        (zi - local2 b 2 tr tc) ^ 2
      if (st.all fun s => decide (dist < s.1)) && decide (dist < sqthresh)
        then some (dist, tr, tc) else st

/-- The candidate pixels of the window search in source order: `tr` runs over
the integers in `[rpix - winhalfsize, rpix - winhalfsize + winsize)` (an
integer lower bound against a float upper bound, hence `⌈winsize⌉` steps),
`tc` likewise in the inner loop. -/
def windowCandidates (rpix cpix whs : ℤ) (winsize : ℚ) : List (ℤ × ℤ) :=
  (List.range (Int.toNat ⌈winsize⌉)).flatMap fun jr =>
    (List.range (Int.toNat ⌈winsize⌉)).map fun jc =>
      (rpix - whs + (jr : ℤ), cpix - whs + (jc : ℤ))

/-- Per-cell body of `compute_visibility_and_flows` (lines 40–125), giving
the visibility byte and flow vector of cell `(b, r, c)`.  Each loop iteration
of the source writes only its own cell's output locations, so the triple loop
is modelled cell-wise; both outputs default to the zero fill performed by the
caller (lines 194–198) whenever the source writes nothing.  A background
point (label 0) is immediately marked visible with no data-association
search; otherwise the point is projected by the pose of its link, rounded to
a pixel, and matched in a window around that pixel. -/
def computeVisibilityAndFlowsCell
    (cloud1 cloud2 local1 local2 : ℕ → Fin 3 → ℕ → ℕ → ℚ)
    (label1 label2 : ℕ → ℕ → ℕ → ℕ) (poses2 : ℕ → ℕ → ℕ → ℚ)
    (fx fy cx cy threshold winsize : ℚ)
    (nrows ncols b r c : ℕ) : ℕ × (Fin 3 → ℚ) :=
  let sqthresh := threshold ^ 2
  let whs : ℤ := ⌊winsize / 2⌋
  let xi := local1 b 0 r c
  let yi := local1 b 1 r c
  let zi := local1 b 2 r c
  let mi := label1 b r c
  if mi = 0 then (1, fun _ => 0)
  else
    let T := poses2 b mi
    let xp := T 0 * xi + T 1 * yi + T 2 * zi + T 3
    let yp := T 4 * xi + T 5 * yi + T 6 * zi + T 7
    let zp := T 8 * xi + T 9 * yi + T 10 * zi + T 11
    let cpix := cRound (xp / zp * fx + cx)
    let rpix := cRound (yp / zp * fy + cy)
    if rpix < 0 ∨ (nrows : ℤ) ≤ rpix ∨ cpix < 0 ∨ (ncols : ℤ) ≤ cpix then (0, fun _ => 0)
    else
      match (windowCandidates rpix cpix whs winsize).foldl
          (daStep nrows ncols mi label2 local2 b xi yi zi sqthresh) none with
      | none => (0, fun _ => 0)
      | some (_, mintr, mintc) =>
          (1, fun i => cloud2 b i mintr mintc - cloud1 b i r c)

/-- Forward-pass (t → t+1) visibility of `ComputeFlowAndVisibility_Pts_float`:
the first `compute_visibility_and_flows` call (lines 249–252) on cloud1/cloud2
with the labels of frame t and the poses of frame t+1. -/
def fwdVisibility (inp : FlowVisTensors) (b r c : ℕ) : ℕ :=
  (computeVisibilityAndFlowsCell inp.cloud1 inp.cloud2
    (localCoords inp.cloud1 inp.label1 inp.poseinvs1)
    (localCoords inp.cloud2 inp.label2 inp.poseinvs2)
    inp.label1 inp.label2 inp.poses2 inp.fx inp.fy inp.cx inp.cy
    inp.threshold inp.winsize inp.nrows inp.ncols b r c).1

/-- Forward-pass (t → t+1) flow field of `ComputeFlowAndVisibility_Pts_float`. -/
def fwdFlows (inp : FlowVisTensors) (b : ℕ) (i : Fin 3) (r c : ℕ) : ℚ :=
  (computeVisibilityAndFlowsCell inp.cloud1 inp.cloud2
    (localCoords inp.cloud1 inp.label1 inp.poseinvs1)
    (localCoords inp.cloud2 inp.label2 inp.poseinvs2)
    inp.label1 inp.label2 inp.poses2 inp.fx inp.fy inp.cx inp.cy
    inp.threshold inp.winsize inp.nrows inp.ncols b r c).2 i

/-- Backward-pass (t+1 → t) visibility: the second
`compute_visibility_and_flows` call (lines 255–258) with the two frames
swapped and the poses of frame t. -/
def bwdVisibility (inp : FlowVisTensors) (b r c : ℕ) : ℕ :=
  (computeVisibilityAndFlowsCell inp.cloud2 inp.cloud1
    (localCoords inp.cloud2 inp.label2 inp.poseinvs2)
    (localCoords inp.cloud1 inp.label1 inp.poseinvs1)
    inp.label2 inp.label1 inp.poses1 inp.fx inp.fy inp.cx inp.cy
    inp.threshold inp.winsize inp.nrows inp.ncols b r c).1

/-- Backward-pass (t+1 → t) flow field. -/
def bwdFlows (inp : FlowVisTensors) (b : ℕ) (i : Fin 3) (r c : ℕ) : ℚ :=
  (computeVisibilityAndFlowsCell inp.cloud2 inp.cloud1
    (localCoords inp.cloud2 inp.label2 inp.poseinvs2)
    (localCoords inp.cloud1 inp.label1 inp.poseinvs1)
    inp.label2 inp.label1 inp.poses1 inp.fx inp.fy inp.cx inp.cy
    inp.threshold inp.winsize inp.nrows inp.ncols b r c).2 i

/-- C10: for every cell whose source label is 0 (background), the
flow/visibility routine marks the cell visible (1) and leaves its flow at
the initialized zero, with no data-association search performed — in the
forward (t → t+1) pass keyed on frame-t labels and in the backward
(t+1 → t) pass keyed on frame-(t+1) labels alike. -/
theorem C10_background_visible_zero_flow (inp : FlowVisTensors) (b r c : ℕ) :
    (inp.label1 b r c = 0 →
        fwdVisibility inp b r c = 1 ∧ ∀ i, fwdFlows inp b i r c = 0) ∧
      (inp.label2 b r c = 0 →
        bwdVisibility inp b r c = 1 ∧ ∀ i, bwdFlows inp b i r c = 0) := by
  constructor <;> intro h <;> refine ⟨?_, fun i => ?_⟩ <;>
    simp [fwdVisibility, fwdFlows, bwdVisibility, bwdFlows,
      computeVisibilityAndFlowsCell, h]

/-- All-zero single-cell flow/visibility input: both labels are background
everywhere. -/
def zeroLabelFlowInput : FlowVisTensors :=
  ⟨1, 1, 1, fun _ _ _ _ => 0, fun _ _ _ _ => 0, fun _ _ _ => 0, fun _ _ _ => 0,
    fun _ _ _ => 0, fun _ _ _ => 0, fun _ _ _ => 0, fun _ _ _ => 0,
    0, 0, 0, 0, 0, 0⟩

theorem C10_background_visible_zero_flow_witness :
    fwdVisibility zeroLabelFlowInput 0 0 0 = 1 ∧
      fwdFlows zeroLabelFlowInput 0 0 0 0 = 0 ∧
      bwdVisibility zeroLabelFlowInput 0 0 0 = 1 ∧
      bwdFlows zeroLabelFlowInput 0 1 0 0 = 0 :=
  ⟨((C10_background_visible_zero_flow zeroLabelFlowInput 0 0 0).1 rfl).1,
    ((C10_background_visible_zero_flow zeroLabelFlowInput 0 0 0).1 rfl).2 0,
    ((C10_background_visible_zero_flow zeroLabelFlowInput 0 0 0).2 rfl).1,
    ((C10_background_visible_zero_flow zeroLabelFlowInput 0 0 0).2 rfl).2 1⟩
